import Mathlib

/-!
# k: interactive kubectl context / namespace switcher

A shallow embedding of `k.go` and a verification of its specification.

Go strings are byte sequences; they are embedded as lists of byte values.
The library calls the program makes (`strings.Fields`, `bufio.Scanner`,
`promptui.Select.Run`, `exec.Cmd.Run`, ...) are embedded from their documented
behaviour; calls that reach outside the process are answers of a `World`.
-/

namespace K

/-! ## Strings -/

/-- A Go `string`: its bytes, in order. -/
abbrev GoString := List Nat

/-- UTF-8 encoding of one code point, as the Go compiler stores a character of
a string literal. -/
def utf8EncodeRune (n : Nat) : List Nat :=
  if n < 0x80 then [n]
  else if n < 0x800 then [0xC0 + n / 64, 0x80 + n % 64]
  else if n < 0x10000 then [0xE0 + n / 4096, 0x80 + (n / 64) % 64, 0x80 + n % 64]
  else [0xF0 + n / 262144, 0x80 + (n / 4096) % 64, 0x80 + (n / 64) % 64, 0x80 + n % 64]

/-- The bytes of a Go string literal. -/
def lit (s : String) : GoString :=
  s.toList.flatMap (fun c => utf8EncodeRune c.toNat)

/-! ## `unicode/utf8` and `unicode` -/

/-- Go `utf8.RuneError`, the replacement code point U+FFFD. -/
def RuneError : Nat := 0xFFFD

/-- Go `utf8.DecodeRuneInString`: the first code point of `s` and its width in
bytes.  An invalid or truncated encoding decodes to `(RuneError, 1)`; the empty
string to `(RuneError, 0)`.  The conditions on the lead byte and on the second
byte are the library's `first` and `acceptRanges` tables written out. -/
def DecodeRuneInString (s : GoString) : Nat × Nat :=
  match s with
  | [] => (RuneError, 0)
  | s0 :: t =>
    if s0 < 0x80 then (s0, 1)
    else if s0 < 0xC2 ∨ 0xF4 < s0 then (RuneError, 1)
    else
      let sz := if s0 < 0xE0 then 2 else if s0 < 0xF0 then 3 else 4
      let lo := if s0 = 0xE0 then 0xA0 else if s0 = 0xF0 then 0x90 else 0x80
      let hi := if s0 = 0xED then 0x9F else if s0 = 0xF4 then 0x8F else 0xBF
      if s.length < sz then (RuneError, 1)
      else
        match t with
        | [] => (RuneError, 1)
        | s1 :: t1 =>
          if s1 < lo ∨ hi < s1 then (RuneError, 1)
          else if sz ≤ 2 then ((s0 % 32) * 64 + s1 % 64, 2)
          else
            match t1 with
            | [] => (RuneError, 1)
            | s2 :: t2 =>
              if s2 < 0x80 ∨ 0xBF < s2 then (RuneError, 1)
              else if sz ≤ 3 then ((s0 % 16) * 4096 + (s1 % 64) * 64 + s2 % 64, 3)
              else
                match t2 with
                | [] => (RuneError, 1)
                | s3 :: _ =>
                  if s3 < 0x80 ∨ 0xBF < s3 then (RuneError, 1)
                  else ((s0 % 8) * 262144 + (s1 % 64) * 4096 + (s2 % 64) * 64 + s3 % 64, 4)

/-- Go `unicode.IsSpace`: the Latin-1 spaces `\t \n \v \f \r`, space, U+0085,
U+00A0, and beyond Latin-1 the code points of the `White_Space` table. -/
def IsSpace (r : Nat) : Bool :=
  if r ≤ 0xFF then
    r = 0x09 || r = 0x0A || r = 0x0B || r = 0x0C || r = 0x0D || r = 0x20 || r = 0x85 || r = 0xA0
  else
    r = 0x1680 || (0x2000 ≤ r && r ≤ 0x200A) || r = 0x2028 || r = 0x2029 || r = 0x202F
      || r = 0x205F || r = 0x3000

/-- Go `for _, r := range s` over a string: the code points of `s` in order,
each with the bytes it was decoded from.  The first argument bounds the number
of iterations; `runes` passes the length of the string, which is never
exhausted because every iteration consumes at least one byte. -/
def rangeString : Nat → GoString → List (Nat × GoString)
  | 0, _ => []
  | _ + 1, [] => []
  | fuel + 1, b :: bs =>
    let d := DecodeRuneInString (b :: bs)
    (d.1, (b :: bs).take d.2) :: rangeString fuel ((b :: bs).drop d.2)

/-- The code points of a string, each with its bytes. -/
def runes (s : GoString) : List (Nat × GoString) :=
  rangeString s.length s

/-! ## `strings.Fields` -/

/-- The loop of Go `strings.FieldsFunc`.  `start` is the open span (`none` for
`start < 0`), held as the bytes read since the span began; a separator closes
the open span, any other code point opens one or extends it, and a span still
open at the end of the string is closed there. -/
def fieldsLoop (f : Nat → Bool) : List (Nat × GoString) → Option GoString → List GoString
  | [], none => []
  | [], some cur => [cur]
  | (r, bs) :: rest, none =>
    if f r then fieldsLoop f rest none else fieldsLoop f rest (some bs)
  | (r, bs) :: rest, some cur =>
    if f r then cur :: fieldsLoop f rest none else fieldsLoop f rest (some (cur ++ bs))

/-- Go `strings.FieldsFunc`. -/
def FieldsFunc (s : GoString) (f : Nat → Bool) : List GoString :=
  fieldsLoop f (runes s) none

/-- Go `strings.Fields`: the maximal runs of non-space code points of `s`, in
order; empty when `s` holds only white space.  (The library's fast path for
all-ASCII input computes the same slices.) -/
def Fields (s : GoString) : List GoString :=
  FieldsFunc s IsSpace

/-! ## `bufio.Scanner` with the default split function `ScanLines` -/

/-- Go `bufio.MaxScanTokenSize`, the size the scanner's buffer may grow to. -/
def MaxScanTokenSize : Nat := 64 * 1024

/-- Go `bytes.IndexByte`: index of the first `c` in `data`, if any. -/
def IndexByte : GoString → Nat → Option Nat
  | [], _ => none
  | b :: bs, c => if b = c then some 0 else (IndexByte bs c).map (· + 1)

/-- Go `dropCR` of package `bufio`: drop one trailing `\r`. -/
def dropCR (data : GoString) : GoString :=
  if data.getLast? = some 0x0D then data.dropLast else data

/-- What one call of `scanner.Scan()` does with the input not yet consumed. -/
inductive ScanResult where
  /-- A token: `Scan` returned true; `scanner.Text()` and the input left. -/
  | token (text : GoString) (rest : GoString)
  /-- End of input: `Scan` returned false and `scanner.Err()` is nil. -/
  | eof
  /-- Token too long: `Scan` returned false and `scanner.Err()` is `bufio.ErrTooLong`. -/
  | tooLong
  deriving DecidableEq, Repr

/-- One `scanner.Scan()` on a scanner over a `bytes.Buffer` holding `data`.
`ScanLines` returns the bytes before the first newline, without a trailing
`\r`, and consumes the newline; at end of input it returns a last unterminated
non-empty line.  The scanner can only hand the split function what fits in its
buffer of at most `MaxScanTokenSize` bytes: a terminated line must fit together
with its newline, and an unterminated last line must leave room for the read
that reports end of input; otherwise `Scan` stops with `ErrTooLong`. -/
def scanLine (data : GoString) : ScanResult :=
  match IndexByte data 0x0A with
  | some i =>
    if i + 1 ≤ MaxScanTokenSize then .token (dropCR (data.take i)) (data.drop (i + 1))
    else .tooLong
  | none =>
    if data = [] then .eof
    else if data.length < MaxScanTokenSize then .token (dropCR data) []
    else .tooLong

/-! ## Namespace parsing in `kubeGetNamespace` -/

/-- How the part of `kubeGetNamespace` after the command has run can end. -/
inductive ParseResult where
  /-- The statement `return namespaces`. -/
  | ok (namespaces : List GoString)
  /-- Run-time panic: index out of range at `lineTokenized[0]`. -/
  | indexOutOfRange
  /-- The call `log.Fatal(err)` on a scanner error. -/
  | fatal
  /-- The iteration bound of the embedding ran out (never the case, see
  `kubeGetNamespaceParse_terminates`). -/
  | outOfFuel
  deriving DecidableEq, Repr

/-- The loop `for scanner.Scan() { ... }` of `kubeGetNamespace` and the check
of `scanner.Err()` after it.  `data` is the input the scanner has not consumed,
`firstLine` and `namespaces` are the variables of the same name. -/
def scanLoop : Nat → GoString → Bool → List GoString → ParseResult
  | 0, _, _, _ => .outOfFuel
  | fuel + 1, data, firstLine, namespaces =>
    match scanLine data with
    | .eof => .ok namespaces
    | .tooLong => .fatal
    | .token text rest =>
      if firstLine then scanLoop fuel rest false namespaces
      else
        match Fields text with
        | [] => .indexOutOfRange
        | first :: _ => scanLoop fuel rest false (namespaces ++ [first])

/-- The part of `kubeGetNamespace` that parses the captured output `buff`
(lines 186-210).  Every iteration of the loop consumes at least one byte, so
`buff.length + 1` iterations are enough. -/
def kubeGetNamespaceParse (buff : GoString) : ParseResult :=
  scanLoop (buff.length + 1) buff true []

/-! ## The outside world -/

/-- One entry of `contexts` in the configuration file. -/
structure ContextEntry where
  Context : List (GoString × GoString)
  Name : GoString
  deriving DecidableEq, Repr

/-- The Go struct `Config`: the two fields of the kube config that are read. -/
structure Config where
  Contexts : List ContextEntry
  CurrentContext : GoString
  deriving DecidableEq, Repr

/-- The fields of `promptui.Select` that `selectPrompt` sets.  `Searcher` records
whether the substring searcher is installed. -/
structure Select where
  Label : GoString
  Items : List GoString
  Size : Int
  CursorPos : Int
  HideHelp : Bool
  HideSelected : Bool
  Searcher : Bool
  StartInSearchMode : Bool
  deriving DecidableEq, Repr

/-- Where a child process writes a stream: the parent's `os.Stdout`, the
parent's `os.Stderr`, or the in-memory buffer `buff`. -/
inductive Writer where
  | osStdout
  | osStderr
  | buffer
  deriving DecidableEq, Repr

/-- The fields of `exec.Cmd` that the program sets. -/
structure Cmd where
  Path : GoString
  Args : List GoString
  Stdout : Writer
  Stderr : Writer
  deriving DecidableEq, Repr

/-- Everything the program asks of its environment.  A prompt or a command is
answered as a function of the request; within one run no request is made
twice, so this fixes an arbitrary answer to every step. -/
structure World where
  /-- Go `exec.LookPath`: the resolved path, `none` on error. -/
  lookPath : GoString → Option GoString
  /-- Go `os.Getenv`. -/
  getenv : GoString → GoString
  /-- Whether `os.Open` succeeds on this path. -/
  osOpen : GoString → Bool
  /-- Go `ioutil.ReadAll` of the opened file, `none` on error. -/
  readAll : GoString → Option GoString
  /-- Whether `Close` of the opened file returns an error. -/
  closeFails : GoString → Bool
  /-- Go `yaml.Unmarshal` into a `Config`, `none` on error. -/
  yamlUnmarshal : GoString → Option Config
  /-- Go `promptui.Select.Run`: the chosen string, `none` when `err != nil`
  (cancelled, interrupted, end of input). -/
  selectRun : Select → Option GoString
  /-- Go `exec.Cmd.Run`: whether `err == nil`, and what the child wrote to its
  standard output. -/
  cmdRun : Cmd → Bool × GoString

/-- A step that reaches the user or the external tool. -/
inductive Event where
  | prompt (p : Select)
  | exec (c : Cmd)
  deriving DecidableEq, Repr

/-- How the process ends. -/
inductive Exit where
  /-- Return of `main`: status 0. -/
  | success
  /-- An uncaught `panic`: non-zero status. -/
  | panic
  /-- The call `os.Exit(1)`, directly or through `log.Fatal`. -/
  | exit1
  /-- The iteration bound of the embedding ran out (never the case, see
  `run_terminates`). -/
  | outOfFuel
  deriving DecidableEq, Repr

/-- A run: the prompts shown and commands invoked, in order, and the exit. -/
structure Outcome where
  trace : List Event
  exit : Exit
  deriving DecidableEq, Repr

/-! ## The program -/

/-- Go `init`: resolve `kubectl` once; `none` stands for `os.Exit(1)`. -/
def init (W : World) : Option GoString :=
  W.lookPath (lit "kubectl")

/-- Go `selectPrompt`. -/
def selectPrompt (label : GoString) (items : List GoString) (size : Int) (search : Bool) :
    Select :=
  if search then
    { Label := label, Items := items, Size := size, CursorPos := 0, HideHelp := true,
      HideSelected := true, Searcher := true, StartInSearchMode := true }
  else
    { Label := label, Items := items, Size := size, CursorPos := 0, HideHelp := true,
      HideSelected := false, Searcher := false, StartInSearchMode := false }

/-- The `exec.Cmd` built by `kubeSetContext`. -/
def kubeSetContextCmd (kubectlExecutable context : GoString) : Cmd :=
  { Path := kubectlExecutable,
    Args := [kubectlExecutable, lit "config", lit "use-context", context],
    Stdout := .osStdout, Stderr := .osStderr }

/-- Go `kubeSetContext`: the command invoked and whether it returned nil. -/
def kubeSetContext (W : World) (kubectlExecutable context : GoString) : Event × Bool :=
  let c := kubeSetContextCmd kubectlExecutable context
  (.exec c, (W.cmdRun c).1)

/-- The `exec.Cmd` built by `kubeSetNamespace`. -/
def kubeSetNamespaceCmd (kubectlExecutable namespace_ : GoString) : Cmd :=
  let namespaceSelector := lit "--namespace=" ++ namespace_
  { Path := kubectlExecutable,
    Args := [kubectlExecutable, lit "config", lit "set-context", lit "--current",
      namespaceSelector],
    Stdout := .osStdout, Stderr := .osStderr }

/-- Go `kubeSetNamespace`: the command invoked and whether it returned nil. -/
def kubeSetNamespace (W : World) (kubectlExecutable namespace_ : GoString) : Event × Bool :=
  let c := kubeSetNamespaceCmd kubectlExecutable namespace_
  (.exec c, (W.cmdRun c).1)

/-- The `exec.Cmd` built by `kubeGetNamespace`. -/
def kubeGetNamespaceCmd (kubectlExecutable context : GoString) : Cmd :=
  { Path := kubectlExecutable,
    Args := [kubectlExecutable, lit "get", lit "namespace", lit "--context", context],
    Stdout := .buffer, Stderr := .osStderr }

/-- Go `kubeGetNamespace`: the command invoked, and either the namespaces
returned or the way the process ends inside the function. -/
def kubeGetNamespace (W : World) (kubectlExecutable context : GoString) :
    Event × Except Exit (List GoString) :=
  let getNamespaceCommand := kubeGetNamespaceCmd kubectlExecutable context
  let r := W.cmdRun getNamespaceCommand
  (.exec getNamespaceCommand,
    if r.1 then
      match kubeGetNamespaceParse r.2 with
      | .ok namespaces => .ok namespaces
      | .indexOutOfRange => .error .panic
      | .fatal => .error .exit1
      | .outOfFuel => .error .outOfFuel
    else .error .panic)

/-- Lines 64-68 of `main`: the names of the contexts, appended one by one. -/
def extractContexts (kubeConf : Config) : List GoString :=
  kubeConf.Contexts.foldl (fun contexts c => contexts ++ [c.Name]) []

/-- Lines 64-107 of `main`: everything after the configuration is parsed. -/
def mainFlow (W : World) (kubectlExecutable : GoString) (kubeConf : Config) : Outcome :=
  let contexts := extractContexts kubeConf
  let contextPrompt := selectPrompt (lit "Select context") contexts 10 false
  let t1 := [Event.prompt contextPrompt]
  match W.selectRun contextPrompt with
  | none => ⟨t1, .panic⟩
  | some selectedContext =>
    let s := kubeSetContext W kubectlExecutable selectedContext
    let t2 := t1 ++ [s.1]
    if !s.2 then ⟨t2, .panic⟩
    else
      let setNamespacePrompt :=
        selectPrompt (lit "Set Namespace for current context?") [lit "no", lit "yes"] 2 false
      let t3 := t2 ++ [Event.prompt setNamespacePrompt]
      match W.selectRun setNamespacePrompt with
      | none => ⟨t3, .panic⟩
      | some setNamespace =>
        if setNamespace = lit "yes" then
          let g := kubeGetNamespace W kubectlExecutable selectedContext
          let t4 := t3 ++ [g.1]
          match g.2 with
          | .error e => ⟨t4, e⟩
          | .ok namespaces =>
            let namespacePrompt := selectPrompt (lit "Select namespace") namespaces 10 false
            let t5 := t4 ++ [Event.prompt namespacePrompt]
            match W.selectRun namespacePrompt with
            | none => ⟨t5, .panic⟩
            | some selectedNamespace =>
              let n := kubeSetNamespace W kubectlExecutable selectedNamespace
              let t6 := t5 ++ [n.1]
              if !n.2 then ⟨t6, .panic⟩ else ⟨t6, .success⟩
        else ⟨t3, .success⟩

/-- The deferred `kubeConfFile.Close()`: it runs when `main` returns or panics,
and panics itself when `Close` fails; `os.Exit` skips it. -/
def deferredClose (closeFails : Bool) (o : Outcome) : Outcome :=
  match o.exit with
  | .success => if closeFails then ⟨o.trace, .panic⟩ else o
  | .panic => o
  | .exit1 => o
  | .outOfFuel => o

/-- The path `main` builds with `fmt.Sprintf("%s/.kube/config", os.Getenv("HOME"))`
(the comment above it in the source names `$HOME/.kube/conf`; the code opens
`config`). -/
def configFilePath (W : World) : GoString :=
  W.getenv (lit "HOME") ++ lit "/.kube/config"

/-- Go `main`, with the executable path that `init` stored. -/
def main (W : World) (kubectlExecutable : GoString) : Outcome :=
  if !W.osOpen (configFilePath W) then ⟨[], .panic⟩
  else
    deferredClose (W.closeFails (configFilePath W))
      (match W.readAll (configFilePath W) with
        | none => ⟨[], .panic⟩
        | some kubeConfData =>
          match W.yamlUnmarshal kubeConfData with
          | none => ⟨[], .panic⟩
          | some kubeConf => mainFlow W kubectlExecutable kubeConf)

/-- The whole process: `init`, then `main`. -/
def run (W : World) : Outcome :=
  match init W with
  | none => ⟨[], .exit1⟩
  | some kubectlExecutable => main W kubectlExecutable

/-! ## Vocabulary of the specification -/

/-- The lines of a text: the pieces between newlines.  A newline ends a line,
so a final newline does not open another line. -/
def rawLines : GoString → List GoString
  | [] => []
  | b :: bs =>
    if b = 0x0A then [] :: rawLines bs
    else
      match rawLines bs with
      | [] => [[b]]
      | l :: ls => (b :: l) :: ls

/-- The lines of a text as `scanner.Text()` shows them: without the newline
and without a carriage return before it. -/
def textLines (text : GoString) : List GoString :=
  (rawLines text).map dropCR

/-- A line that is empty or consists solely of white space. -/
def isBlank (line : GoString) : Bool :=
  (runes line).all (fun r => IsSpace r.1)

/-- The first whitespace-separated field of a line: skip the leading white
space, then take code points up to the next white space. -/
def firstField (line : GoString) : GoString :=
  (((runes line).dropWhile (fun r => IsSpace r.1)).takeWhile (fun r => !IsSpace r.1)).flatMap
    (fun r => r.2)

/-- The loop of `kubeGetNamespace` read over the lines of the text instead of
over the scanner: an over-long line ends it with `log.Fatal`, the first line is
skipped, every other line gives its first field or the index panic. -/
def walkLines : List GoString → Bool → List GoString → ParseResult
  | [], _, namespaces => .ok namespaces
  | l :: ls, firstLine, namespaces =>
    if MaxScanTokenSize ≤ l.length then .fatal
    else if firstLine then walkLines ls false namespaces
    else
      match Fields (dropCR l) with
      | [] => .indexOutOfRange
      | first :: _ => walkLines ls false (namespaces ++ [first])

/-- The external commands of a run, in order. -/
def invocations (trace : List Event) : List Cmd :=
  trace.filterMap (fun e => match e with
    | .exec c => some c
    | .prompt _ => none)

/-- The prompts of a run, in order. -/
def prompts (trace : List Event) : List Select :=
  trace.filterMap (fun e => match e with
    | .prompt p => some p
    | .exec _ => none)

/-- The program got as far as the first prompt: `kubectl` resolved to
`kubectlExecutable` and the configuration file was read and parsed to
`kubeConf`. -/
def Loads (W : World) (kubectlExecutable : GoString) (kubeConf : Config) : Prop :=
  init W = some kubectlExecutable ∧ W.osOpen (configFilePath W) = true ∧
    ∃ kubeConfData, W.readAll (configFilePath W) = some kubeConfData ∧
      W.yamlUnmarshal kubeConfData = some kubeConf

/-- The context prompt of `main`. -/
def contextPrompt (kubeConf : Config) : Select :=
  selectPrompt (lit "Select context") (extractContexts kubeConf) 10 false

/-- The yes/no prompt of `main`. -/
def setNamespacePrompt : Select :=
  selectPrompt (lit "Set Namespace for current context?") [lit "no", lit "yes"] 2 false

/-- The namespace prompt of `main`. -/
def namespacePrompt (namespaces : List GoString) : Select :=
  selectPrompt (lit "Select namespace") namespaces 10 false

/-- The steps of a run in which the user answers yes and nothing fails. -/
def successSequence (kubectlExecutable : GoString) (contexts : List GoString)
    (c : GoString) (namespaces : List GoString) (n : GoString) : List Event :=
  [.prompt (selectPrompt (lit "Select context") contexts 10 false),
   .exec (kubeSetContextCmd kubectlExecutable c),
   .prompt setNamespacePrompt,
   .exec (kubeGetNamespaceCmd kubectlExecutable c),
   .prompt (namespacePrompt namespaces),
   .exec (kubeSetNamespaceCmd kubectlExecutable n)]

/-- A step succeeded: the prompt returned a choice; the command returned nil
and, when its output is captured for parsing, the parse returned a list. -/
def stepOk (W : World) : Event → Bool
  | .prompt p => (W.selectRun p).isSome
  | .exec c =>
    (W.cmdRun c).1 &&
      (c.Stdout != .buffer ||
        match kubeGetNamespaceParse (W.cmdRun c).2 with
        | .ok _ => true
        | _ => false)

/-- A command that changes the kube configuration: a `kubectl config ...`. -/
def mutating : Event → Bool
  | .exec c => c.Args[1]? == some (lit "config")
  | .prompt _ => false

/-- The steps of a run that changed the kube configuration: the mutating
commands that returned nil. -/
def appliedChanges (W : World) (trace : List Event) : List Event :=
  trace.filter (fun e => mutating e && stepOk W e)

/-- Fail-fast without rollback, for a run `o` with executable
`kubectlExecutable` and context names `contexts`: the steps are an initial
part of a success sequence; every step but the last succeeded; a run that
exits with success has no failed step; and when a step after the yes/no
prompt failed, the only change applied is the `use-context` of the chosen
context, and the only other mutating command issued, if any, is the
`set-context` that failed; when the failed step is not that `set-context`, the
`use-context` is the only mutating command issued. -/
def FailFast (W : World) (kubectlExecutable : GoString) (contexts : List GoString)
    (o : Outcome) : Prop :=
  ∃ c namespaces n,
    o.trace <+: successSequence kubectlExecutable contexts c namespaces n ∧
    (∀ e ∈ o.trace.dropLast, stepOk W e = true) ∧
    (o.exit = .success → ∀ e ∈ o.trace, stepOk W e = true) ∧
    ((∃ e ∈ o.trace.drop 3, stepOk W e = false) →
      appliedChanges W o.trace = [.exec (kubeSetContextCmd kubectlExecutable c)] ∧
      (o.trace.filter mutating = [.exec (kubeSetContextCmd kubectlExecutable c)] ∨
        (o.trace.filter mutating =
            [.exec (kubeSetContextCmd kubectlExecutable c),
             .exec (kubeSetNamespaceCmd kubectlExecutable n)] ∧
          stepOk W (.exec (kubeSetNamespaceCmd kubectlExecutable n)) = false))) ∧
    ((∃ e ∈ o.trace.drop 3,
        stepOk W e = false ∧ e ≠ .exec (kubeSetNamespaceCmd kubectlExecutable n)) →
      o.trace.filter mutating = [.exec (kubeSetContextCmd kubectlExecutable c)])

/-! ## Concrete runs -/

/-- A configuration with the contexts `dev` and `prod`, current `dev`. -/
def demoConfig : Config :=
  { Contexts := [⟨[], lit "dev"⟩, ⟨[], lit "prod"⟩], CurrentContext := lit "dev" }

/-- What `kubectl get namespace` prints in the specification's example. -/
def demoOutput : GoString :=
  lit "NAME STATUS AGE\ndefault Active 14d\nkube-system Active 14d\n"

/-- A world in which the configuration is `demoConfig`, every command succeeds
and prints `demoOutput`, and the user answers a prompt by its label. -/
def demoWorld (answers : GoString → Option GoString) : World :=
  { lookPath := fun _ => some (lit "/usr/bin/kubectl"),
    getenv := fun _ => lit "/home/u",
    osOpen := fun _ => true,
    readAll := fun _ => some (lit "contexts: ..."),
    closeFails := fun _ => false,
    yamlUnmarshal := fun _ => some demoConfig,
    selectRun := fun p => answers p.Label,
    cmdRun := fun c => (true, if c.Stdout = .buffer then demoOutput else []) }

/-- The user selects `prod`, then `no`. -/
def answersNo (label : GoString) : Option GoString :=
  if label = lit "Select context" then some (lit "prod")
  else if label = lit "Set Namespace for current context?" then some (lit "no")
  else none

/-- The user selects `prod`, then `yes`, then `kube-system`. -/
def answersYes (label : GoString) : Option GoString :=
  if label = lit "Select context" then some (lit "prod")
  else if label = lit "Set Namespace for current context?" then some (lit "yes")
  else if label = lit "Select namespace" then some (lit "kube-system")
  else none

/-- The user cancels every prompt. -/
def answersCancel (_ : GoString) : Option GoString :=
  none

/-- The world of `demoWorld answersYes`, but `config set-context` fails: the
user selects `prod`, `yes`, `kube-system`, and every other command succeeds. -/
def setContextFailsWorld : World :=
  { lookPath := fun _ => some (lit "/usr/bin/kubectl"),
    getenv := fun _ => lit "/home/u",
    osOpen := fun _ => true,
    readAll := fun _ => some (lit "contexts: ..."),
    closeFails := fun _ => false,
    yamlUnmarshal := fun _ => some demoConfig,
    selectRun := fun p => answersYes p.Label,
    cmdRun := fun c =>
      (c.Args[2]? != some (lit "set-context"), if c.Stdout = .buffer then demoOutput else []) }

/-- A text whose second line has `MaxScanTokenSize` bytes. -/
def longRowText : GoString :=
  lit "NAME STATUS AGE" ++ 0x0A :: (List.replicate MaxScanTokenSize 0x78 ++ [0x0A])

/-- A single line of `MaxScanTokenSize` bytes, without a newline. -/
def longLineText : GoString :=
  List.replicate MaxScanTokenSize 0x78

/-! ## Decoding consumes the whole string -/

theorem DecodeRuneInString_width (b : Nat) (bs : GoString) :
    1 ≤ (DecodeRuneInString (b :: bs)).2 ∧
      (DecodeRuneInString (b :: bs)).2 ≤ (b :: bs).length := by
  rw [DecodeRuneInString]
  by_cases h1 : b < 0x80
  · rw [if_pos h1]
    simp
  · rw [if_neg h1]
    by_cases h2 : b < 0xC2 ∨ 0xF4 < b
    · rw [if_pos h2]
      simp
    · rw [if_neg h2]
      simp only []
      generalize (if b < 0xE0 then 2 else if b < 0xF0 then 3 else 4) = sz
      generalize (if b = 0xE0 then 0xA0 else if b = 0xF0 then 0x90 else 0x80) = lo
      generalize (if b = 0xED then 0x9F else if b = 0xF4 then 0x8F else 0xBF) = hi
      rcases bs with _ | ⟨s1, _ | ⟨s2, _ | ⟨s3, t⟩⟩⟩ <;> simp only [] <;> split_ifs <;> simp

theorem DecodeRuneInString_append_CR (b : Nat) (bs : GoString) :
    DecodeRuneInString (b :: bs ++ [0x0D]) = DecodeRuneInString (b :: bs) := by
  rw [List.cons_append, DecodeRuneInString, DecodeRuneInString]
  by_cases h1 : b < 0x80
  · rw [if_pos h1, if_pos h1]
  · rw [if_neg h1, if_neg h1]
    by_cases h2 : b < 0xC2 ∨ 0xF4 < b
    · rw [if_pos h2, if_pos h2]
    · rw [if_neg h2, if_neg h2]
      simp only []
      have hsz : (if b < 0xE0 then 2 else if b < 0xF0 then 3 else 4) = 2 ∨
          (if b < 0xE0 then 2 else if b < 0xF0 then 3 else 4) = 3 ∨
          (if b < 0xE0 then 2 else if b < 0xF0 then 3 else 4) = 4 := by
        split_ifs <;> simp
      have hlo : 0x0D < (if b = 0xE0 then 0xA0 else if b = 0xF0 then 0x90 else 0x80) := by
        split_ifs <;> simp
      revert hsz hlo
      generalize (if b < 0xE0 then 2 else if b < 0xF0 then 3 else 4) = sz
      generalize (if b = 0xE0 then 0xA0 else if b = 0xF0 then 0x90 else 0x80) = lo
      generalize (if b = 0xED then 0x9F else if b = 0xF4 then 0x8F else 0xBF) = hi
      intro hsz hlo
      rcases bs with _ | ⟨s1, _ | ⟨s2, _ | ⟨s3, t⟩⟩⟩ <;>
        rcases hsz with rfl | rfl | rfl <;>
        simp [hlo] <;>
        split_ifs <;>
        first | rfl | omega

theorem rangeString_bytes (fuel : Nat) (s : GoString) (h : s.length ≤ fuel) :
    (rangeString fuel s).flatMap (fun r => r.2) = s := by
  induction fuel generalizing s with
  | zero =>
    have : s = [] := List.length_eq_zero.mp (Nat.le_zero.mp h)
    subst this
    rfl
  | succ fuel ih =>
    cases s with
    | nil => rfl
    | cons b bs =>
      obtain ⟨h1, h2⟩ := DecodeRuneInString_width b bs
      have hlen : ((b :: bs).drop (DecodeRuneInString (b :: bs)).2).length ≤ fuel := by
        rw [List.length_drop]
        simp only [List.length_cons] at h h2 ⊢
        omega
      simp only [rangeString, List.flatMap_cons, ih _ hlen, List.take_append_drop]

/-- The iteration bound of `runes` is never exhausted: the code points cover
the string byte for byte. -/
theorem runes_bytes (s : GoString) : (runes s).flatMap (fun r => r.2) = s :=
  rangeString_bytes _ _ (Nat.le_refl _)

/-! ## A carriage return at the end of a line is white space -/

theorem rangeString_nil (fuel : Nat) : rangeString fuel [] = [] := by
  cases fuel <;> rfl

theorem rangeString_append_CR (fuel : Nat) (l : GoString) (h : l.length ≤ fuel) :
    rangeString (fuel + 1) (l ++ [0x0D]) = rangeString fuel l ++ [(0x0D, [0x0D])] := by
  induction fuel generalizing l with
  | zero =>
    have : l = [] := List.length_eq_zero.mp (Nat.le_zero.mp h)
    subst this
    simp [rangeString, DecodeRuneInString]
  | succ fuel ih =>
    cases l with
    | nil => simp [rangeString, DecodeRuneInString, rangeString_nil]
    | cons b bs =>
      obtain ⟨h1, h2⟩ := DecodeRuneInString_width b bs
      have hd := DecodeRuneInString_append_CR b bs
      have hlen : ((b :: bs).drop (DecodeRuneInString (b :: bs)).2).length ≤ fuel := by
        rw [List.length_drop]
        simp only [List.length_cons] at h h2 ⊢
        omega
      have e1 : rangeString (fuel + 1 + 1) (b :: bs ++ [0x0D]) =
          ((DecodeRuneInString (b :: bs ++ [0x0D])).1,
            (b :: bs ++ [0x0D]).take (DecodeRuneInString (b :: bs ++ [0x0D])).2) ::
          rangeString (fuel + 1)
            ((b :: bs ++ [0x0D]).drop (DecodeRuneInString (b :: bs ++ [0x0D])).2) := rfl
      have e2 : rangeString (fuel + 1) (b :: bs) =
          ((DecodeRuneInString (b :: bs)).1,
            (b :: bs).take (DecodeRuneInString (b :: bs)).2) ::
          rangeString fuel ((b :: bs).drop (DecodeRuneInString (b :: bs)).2) := rfl
      rw [e1, e2, hd, List.take_append_of_le_length h2, List.drop_append_of_le_length h2,
        ih _ hlen]
      rfl

theorem isBlank_append_CR (l : GoString) : isBlank (l ++ [0x0D]) = isBlank l := by
  have h : runes (l ++ [0x0D]) = runes l ++ [(0x0D, [0x0D])] := by
    unfold runes
    rw [List.length_append]
    exact rangeString_append_CR _ _ (Nat.le_refl _)
  unfold isBlank
  rw [h, List.all_append]
  simp [IsSpace]

theorem isBlank_dropCR (l : GoString) : isBlank (dropCR l) = isBlank l := by
  unfold dropCR
  split
  · rename_i h
    obtain ⟨ys, rfl⟩ := List.getLast?_eq_some_iff.mp h
    rw [List.dropLast_concat, isBlank_append_CR]
  · rfl

/-! ## `strings.Fields` on the code points of a line -/

theorem fieldsLoop_some_ne_nil (f : Nat → Bool) (rs : List (Nat × GoString)) (cur : GoString) :
    fieldsLoop f rs (some cur) ≠ [] := by
  induction rs generalizing cur with
  | nil => simp [fieldsLoop]
  | cons r rest ih =>
    obtain ⟨c, bs⟩ := r
    by_cases h : f c = true
    · simp [fieldsLoop, h]
    · simpa [fieldsLoop, h] using ih (cur ++ bs)

theorem fieldsLoop_none_eq_nil_iff (f : Nat → Bool) (rs : List (Nat × GoString)) :
    fieldsLoop f rs none = [] ↔ rs.all (fun r => f r.1) = true := by
  induction rs with
  | nil => simp [fieldsLoop]
  | cons r rest ih =>
    obtain ⟨c, bs⟩ := r
    by_cases h : f c = true
    · simpa [fieldsLoop, h] using ih
    · simpa [fieldsLoop, h] using fieldsLoop_some_ne_nil f rest bs

theorem fieldsLoop_some_head (f : Nat → Bool) (rs : List (Nat × GoString)) (cur : GoString) :
    (fieldsLoop f rs (some cur)).head? =
      some (cur ++ (rs.takeWhile (fun r => !f r.1)).flatMap (fun r => r.2)) := by
  induction rs generalizing cur with
  | nil => simp [fieldsLoop]
  | cons r rest ih =>
    obtain ⟨c, bs⟩ := r
    by_cases h : f c = true
    · simp [fieldsLoop, h, List.takeWhile]
    · simp [fieldsLoop, h, List.takeWhile, ih]

theorem fieldsLoop_none_head (f : Nat → Bool) (rs : List (Nat × GoString))
    (h : rs.all (fun r => f r.1) = false) :
    (fieldsLoop f rs none).head? =
      some (((rs.dropWhile (fun r => f r.1)).takeWhile (fun r => !f r.1)).flatMap
        (fun r => r.2)) := by
  induction rs with
  | nil => simp at h
  | cons r rest ih =>
    obtain ⟨c, bs⟩ := r
    by_cases hc : f c = true
    · have h2 : rest.all (fun r => f r.1) = false := by simpa [hc] using h
      simpa [fieldsLoop, hc, List.dropWhile] using ih h2
    · simp [fieldsLoop, hc, List.dropWhile, List.takeWhile, fieldsLoop_some_head]

theorem Fields_eq_nil_iff (line : GoString) : Fields line = [] ↔ isBlank line = true := by
  simpa [Fields, FieldsFunc, isBlank] using fieldsLoop_none_eq_nil_iff IsSpace (runes line)

theorem Fields_of_not_blank (line : GoString) (h : isBlank line = false) :
    ∃ others, Fields line = firstField line :: others := by
  have hh := fieldsLoop_none_head IsSpace (runes line) (by simpa [isBlank] using h)
  cases hf : fieldsLoop IsSpace (runes line) none with
  | nil => simp [hf] at hh
  | cons a t =>
    refine ⟨t, ?_⟩
    rw [hf] at hh
    simp only [List.head?_cons, Option.some.injEq] at hh
    simp [Fields, FieldsFunc, firstField, hf, hh]

/-! ## The scanner yields the lines of the text -/

theorem IndexByte_some_rawLines (data : GoString) (i : Nat)
    (h : IndexByte data 0x0A = some i) :
    i < data.length ∧ rawLines data = data.take i :: rawLines (data.drop (i + 1)) := by
  induction data generalizing i with
  | nil => simp [IndexByte] at h
  | cons b bs ih =>
    by_cases hb : b = 0x0A
    · subst hb
      simp [IndexByte] at h
      subst h
      simp [rawLines]
    · simp only [IndexByte, hb, if_false, Option.map_eq_some'] at h
      obtain ⟨j, hj, rfl⟩ := h
      obtain ⟨hlt, hr⟩ := ih j hj
      refine ⟨by simpa using hlt, ?_⟩
      simp [rawLines, hb, hr]

theorem IndexByte_none_rawLines (data : GoString) (h : IndexByte data 0x0A = none)
    (hne : data ≠ []) : rawLines data = [data] := by
  induction data with
  | nil => exact absurd rfl hne
  | cons b bs ih =>
    by_cases hb : b = 0x0A
    · subst hb
      simp [IndexByte] at h
    · simp only [IndexByte, hb, if_false, Option.map_eq_none'] at h
      cases bs with
      | nil => simp [rawLines, hb]
      | cons c cs =>
        have := ih h (by simp)
        rw [rawLines]
        simp only [hb, if_false, this]

theorem scanLoop_eq_walkLines (fuel : Nat) (data : GoString) (firstLine : Bool)
    (namespaces : List GoString) (h : data.length < fuel) :
    scanLoop fuel data firstLine namespaces = walkLines (rawLines data) firstLine namespaces := by
  induction fuel generalizing data firstLine namespaces with
  | zero => omega
  | succ fuel ih =>
    unfold scanLoop scanLine
    cases hi : IndexByte data 0x0A with
    | some i =>
      obtain ⟨hlt, hr⟩ := IndexByte_some_rawLines data i hi
      have hlen : (data.take i).length = i := by simp; omega
      have hrest : (data.drop (i + 1)).length < fuel := by simp; omega
      rw [hr]
      by_cases hsz : i + 1 ≤ MaxScanTokenSize
      · have hsz2 : ¬ MaxScanTokenSize ≤ (data.take i).length := by rw [hlen]; omega
        simp only [hsz, if_true, walkLines, hsz2, if_false]
        cases firstLine with
        | true => simp [ih _ _ _ hrest]
        | false =>
          simp only [Bool.false_eq_true, if_false]
          cases Fields (dropCR (data.take i)) with
          | nil => rfl
          | cons first others => simp [ih _ _ _ hrest]
      · have hsz2 : MaxScanTokenSize ≤ (data.take i).length := by rw [hlen]; omega
        simp only [hsz, if_false, walkLines, hsz2, if_true]
    | none =>
      by_cases hne : data = []
      · subst hne
        simp [rawLines, walkLines]
      · have hr := IndexByte_none_rawLines data hi hne
        have hpos : 0 < fuel := by
          cases data with
          | nil => exact absurd rfl hne
          | cons b bs => simp at h; omega
        have hnil : ∀ (fl : Bool) (acc : List GoString),
            scanLoop fuel [] fl acc = .ok acc := by
          intro fl acc
          rw [ih [] fl acc (by simpa using hpos)]
          simp [rawLines, walkLines]
        rw [hr]
        by_cases hsz : data.length < MaxScanTokenSize
        · have hsz2 : ¬ MaxScanTokenSize ≤ data.length := by omega
          simp only [hne, if_false, hsz, if_true, walkLines, hsz2]
          cases firstLine with
          | true => simp [hnil]
          | false =>
            simp only [Bool.false_eq_true, if_false]
            cases Fields (dropCR data) with
            | nil => rfl
            | cons first others => simp [hnil]
        · have hsz2 : MaxScanTokenSize ≤ data.length := by omega
          simp [hne, hsz, walkLines, hsz2]

theorem kubeGetNamespaceParse_eq_walkLines (buff : GoString) :
    kubeGetNamespaceParse buff = walkLines (rawLines buff) true [] :=
  scanLoop_eq_walkLines _ _ _ _ (Nat.lt_succ_self _)

theorem walkLines_ne_outOfFuel (ls : List GoString) (firstLine : Bool)
    (namespaces : List GoString) : walkLines ls firstLine namespaces ≠ .outOfFuel := by
  induction ls generalizing firstLine namespaces with
  | nil => simp [walkLines]
  | cons l ls ih =>
    unfold walkLines
    split
    · simp
    · split
      · exact ih _ _
      · split
        · simp
        · exact ih _ _

/-- The iteration bound of `kubeGetNamespaceParse` is never exhausted. -/
theorem kubeGetNamespaceParse_terminates (buff : GoString) :
    kubeGetNamespaceParse buff ≠ .outOfFuel := by
  rw [kubeGetNamespaceParse_eq_walkLines]
  exact walkLines_ne_outOfFuel _ _ _

/-! ## The loop over the lines -/

theorem walkLines_first (ls : List GoString) (h : ∀ l ∈ ls, l.length < MaxScanTokenSize) :
    walkLines ls true [] = walkLines ls.tail false [] := by
  cases ls with
  | nil => simp [walkLines]
  | cons l ls =>
    have hl : ¬ MaxScanTokenSize ≤ l.length := by
      have := h l (by simp)
      omega
    simp [walkLines, hl]

theorem walkLines_long (l : GoString) (ls : List GoString) (firstLine : Bool)
    (namespaces : List GoString) (h : MaxScanTokenSize ≤ l.length) :
    walkLines (l :: ls) firstLine namespaces = .fatal := by
  rw [walkLines, if_pos h]

theorem walkLines_header (l : GoString) (ls : List GoString) (namespaces : List GoString)
    (h : ¬ MaxScanTokenSize ≤ l.length) :
    walkLines (l :: ls) true namespaces = walkLines ls false namespaces := by
  rw [walkLines, if_neg h, if_pos rfl]

theorem walkLines_rows_ok (ls : List GoString) (namespaces : List GoString)
    (hshort : ∀ l ∈ ls, l.length < MaxScanTokenSize)
    (htok : ∀ l ∈ ls, isBlank (dropCR l) = false) :
    walkLines ls false namespaces =
      .ok (namespaces ++ ls.map (fun l => firstField (dropCR l))) := by
  induction ls generalizing namespaces with
  | nil => simp [walkLines]
  | cons l ls ih =>
    have hl : ¬ MaxScanTokenSize ≤ l.length := by
      have := hshort l (by simp)
      omega
    obtain ⟨others, hf⟩ := Fields_of_not_blank (dropCR l) (htok l (by simp))
    have := ih (namespaces ++ [firstField (dropCR l)])
      (fun x hx => hshort x (by simp [hx])) (fun x hx => htok x (by simp [hx]))
    simp [walkLines, hl, hf, this]

theorem walkLines_rows_panic_iff (ls : List GoString) (namespaces : List GoString)
    (hshort : ∀ l ∈ ls, l.length < MaxScanTokenSize) :
    walkLines ls false namespaces = .indexOutOfRange ↔
      ∃ l ∈ ls, isBlank (dropCR l) = true := by
  induction ls generalizing namespaces with
  | nil => simp [walkLines]
  | cons l ls ih =>
    have hl : ¬ MaxScanTokenSize ≤ l.length := by
      have := hshort l (by simp)
      omega
    have ih2 := fun acc => ih acc (fun x hx => hshort x (by simp [hx]))
    cases hb : isBlank (dropCR l) with
    | true =>
      have hf := (Fields_eq_nil_iff (dropCR l)).mpr hb
      simp [walkLines, hl, hf, hb]
    | false =>
      obtain ⟨others, hf⟩ := Fields_of_not_blank (dropCR l) hb
      simp [walkLines, hl, hf, hb, ih2]

theorem walkLines_rows_cases (ls : List GoString) (namespaces : List GoString)
    (hshort : ∀ l ∈ ls, l.length < MaxScanTokenSize) :
    walkLines ls false namespaces = .indexOutOfRange ∨
      ∃ ns, walkLines ls false namespaces = .ok ns := by
  induction ls generalizing namespaces with
  | nil => simp [walkLines]
  | cons l ls ih =>
    have hl : ¬ MaxScanTokenSize ≤ l.length := by
      have := hshort l (by simp)
      omega
    have ih2 := fun acc => ih acc (fun x hx => hshort x (by simp [hx]))
    cases hf : Fields (dropCR l) with
    | nil => simp [walkLines, hl, hf]
    | cons first others => simpa [walkLines, hl, hf] using ih2 _

theorem mem_tail_of_mem {α : Type} (x : α) (l : List α) (h : x ∈ l.tail) : x ∈ l := by
  cases l with
  | nil => simp at h
  | cons a t => simp at h; simp [h]

/-- Under the scanner's limit the result is that of the loop over the data
rows alone. -/
theorem kubeGetNamespaceParse_eq_rows (text : GoString)
    (hshort : ∀ l ∈ rawLines text, l.length < MaxScanTokenSize) :
    kubeGetNamespaceParse text = walkLines (rawLines text).tail false [] := by
  rw [kubeGetNamespaceParse_eq_walkLines, walkLines_first _ hshort]

theorem rawLines_cons (b : Nat) (bs : GoString) :
    rawLines (b :: bs) =
      if b = 0x0A then [] :: rawLines bs
      else
        match rawLines bs with
        | [] => [[b]]
        | l :: ls => (b :: l) :: ls := by
  rw [rawLines]

theorem rawLines_append_newline (a b : GoString) (h : 0x0A ∉ a) :
    rawLines (a ++ 0x0A :: b) = a :: rawLines b := by
  induction a with
  | nil => simp [rawLines]
  | cons x xs ih =>
    have hx : ¬ x = 0x0A := fun e => h (by simp [e])
    have := ih (fun hm => h (by simp [hm]))
    rw [List.cons_append, rawLines]
    simp only [hx, if_false, this]

theorem rawLines_single (a : GoString) (h : 0x0A ∉ a) (hne : a ≠ []) : rawLines a = [a] := by
  induction a with
  | nil => exact absurd rfl hne
  | cons x xs ih =>
    have hx : ¬ x = 0x0A := fun e => h (by simp [e])
    cases xs with
    | nil => simp [rawLines, hx]
    | cons y ys =>
      have := ih (fun hm => h (by simp [hm])) (by simp)
      rw [rawLines]
      simp only [hx, if_false, this]

theorem rawLines_append_final_newline (text : GoString) (hne : text ≠ [])
    (h : text.getLast? ≠ some 0x0A) : rawLines (text ++ [0x0A]) = rawLines text := by
  induction text with
  | nil => exact absurd rfl hne
  | cons b bs ih =>
    cases bs with
    | nil =>
      have hb : ¬ b = 0x0A := by simpa using h
      simp [rawLines, hb]
    | cons c cs =>
      have := ih (by simp) (by simpa using h)
      rw [List.cons_append, rawLines_cons, this, ← rawLines_cons b (c :: cs)]

theorem dropCR_of_not_mem (l : GoString) (h : 0x0D ∉ l) : dropCR l = l := by
  unfold dropCR
  split
  · rename_i hl
    exact absurd (List.mem_of_getLast?_eq_some hl) h
  · rfl

theorem isBlank_cons_ascii_letter (t : GoString) : isBlank (0x78 :: t) = false := by
  simp [isBlank, runes, rangeString, DecodeRuneInString, IsSpace]

theorem longLine_eq : List.replicate MaxScanTokenSize 0x78 = 0x78 :: List.replicate 65535 0x78 := by
  show List.replicate (65535 + 1) 0x78 = _
  rw [List.replicate_succ]

theorem rawLines_longRowText :
    rawLines longRowText = [lit "NAME STATUS AGE", List.replicate MaxScanTokenSize 0x78] := by
  unfold longRowText
  rw [rawLines_append_newline _ _ (by decide),
    rawLines_append_newline _ _ (fun h => absurd (List.eq_of_mem_replicate h) (by decide))]
  rfl

theorem rawLines_longLineText : rawLines longLineText = [longLineText] := by
  apply rawLines_single
  · exact fun h => absurd (List.eq_of_mem_replicate h) (by decide)
  · rw [longLineText, longLine_eq]
    exact List.cons_ne_nil _ _

theorem textLines_tail (text : GoString) :
    (textLines text).tail = (rawLines text).tail.map dropCR := by
  simp [textLines, List.map_tail]

theorem short_tail (text : GoString)
    (hshort : ∀ l ∈ rawLines text, l.length < MaxScanTokenSize) :
    ∀ l ∈ (rawLines text).tail, l.length < MaxScanTokenSize :=
  fun l hl => hshort l (mem_tail_of_mem l _ hl)

/-! ## Claims about namespace parsing -/

/-- C1, as stated, fails: in `longRowText` the only line after the first holds
a token, yet the parser does not return the first fields; the line is as long
as the scanner's buffer, `Scan` stops with `ErrTooLong` and `log.Fatal` ends
the process. -/
theorem kubeGetNamespaceParse_long_row_fatal :
    (∀ l ∈ (textLines longRowText).tail, isBlank l = false) ∧
      kubeGetNamespaceParse longRowText = .fatal ∧
      kubeGetNamespaceParse longRowText ≠ .ok ((textLines longRowText).tail.map firstField) := by
  have hd : dropCR (List.replicate MaxScanTokenSize 0x78) = List.replicate MaxScanTokenSize 0x78 :=
    dropCR_of_not_mem _ (fun h => absurd (List.eq_of_mem_replicate h) (by decide))
  have hp : kubeGetNamespaceParse longRowText = .fatal := by
    rw [kubeGetNamespaceParse_eq_walkLines, rawLines_longRowText]
    have h1 : ¬ MaxScanTokenSize ≤ (lit "NAME STATUS AGE").length := by decide
    have h2 : MaxScanTokenSize ≤ (List.replicate MaxScanTokenSize 0x78).length := by
      rw [List.length_replicate]
    rw [walkLines_header _ _ _ h1, walkLines_long _ _ _ _ h2]
  refine ⟨?_, hp, ?_⟩
  · intro l hl
    rw [textLines_tail, rawLines_longRowText] at hl
    simp only [List.tail_cons, List.map_cons, List.map_nil, List.mem_singleton] at hl
    rw [hl, hd, longLine_eq]
    exact isBlank_cons_ascii_letter _
  · rw [hp]
    exact fun h => ParseResult.noConfusion h

/-- C1 (amended): when every line of the captured text is shorter than the
scanner's limit of 65536 bytes and every line after the first holds a
non-whitespace code point, `kubeGetNamespace` returns exactly the first
whitespace-separated fields of the lines after the first, one per line, in the
order of the lines; the first line contributes nothing. -/
theorem kubeGetNamespaceParse_first_fields (text : GoString)
    (hshort : ∀ l ∈ rawLines text, l.length < MaxScanTokenSize)
    (htok : ∀ l ∈ (textLines text).tail, isBlank l = false) :
    kubeGetNamespaceParse text = .ok ((textLines text).tail.map firstField) := by
  rw [kubeGetNamespaceParse_eq_rows text hshort,
    walkLines_rows_ok _ _ (short_tail text hshort), textLines_tail]
  · simp [List.map_map, Function.comp_def]
  · intro l hl
    exact htok (dropCR l) (by rw [textLines_tail]; exact List.mem_map_of_mem _ hl)

/-- C1 at the specification's example: the text with the rows `default` and
`kube-system` yields these two names. -/
theorem kubeGetNamespaceParse_first_fields_demo :
    kubeGetNamespaceParse demoOutput = .ok [lit "default", lit "kube-system"] :=
  (kubeGetNamespaceParse_first_fields demoOutput (by decide) (by decide)).trans (by decide)

/-- C2 fails on the code: a line without a token after the header ends the
parse with the index panic instead of being skipped. -/
theorem kubeGetNamespaceParse_blank_row_panics :
    kubeGetNamespaceParse (lit "NAME STATUS AGE\n\n") = .indexOutOfRange ∧
      kubeGetNamespaceParse (lit "NAME STATUS AGE\ndefault Active 14d\n \t\r\n") =
        .indexOutOfRange := by
  decide

/-- C3, as stated, fails: `longLineText` is a single line, and the parser ends
with `log.Fatal` instead of returning the empty sequence, because the line is
as long as the scanner's buffer. -/
theorem kubeGetNamespaceParse_long_header_fatal :
    rawLines longLineText = [longLineText] ∧
      kubeGetNamespaceParse longLineText = .fatal ∧
      kubeGetNamespaceParse longLineText ≠ .ok [] := by
  have hp : kubeGetNamespaceParse longLineText = .fatal := by
    rw [kubeGetNamespaceParse_eq_walkLines, rawLines_longLineText]
    have h2 : MaxScanTokenSize ≤ longLineText.length := by
      rw [longLineText, List.length_replicate]
    rw [walkLines_long _ _ _ _ h2]
  refine ⟨rawLines_longLineText, hp, ?_⟩
  rw [hp]
  exact fun h => ParseResult.noConfusion h

/-- C3 (amended): a captured text with no line after the first (empty, or a
single line with or without its newline), that line shorter than the scanner's
limit of 65536 bytes, parses to the empty sequence and does not fail. -/
theorem kubeGetNamespaceParse_header_only (text : GoString)
    (hrows : (rawLines text).tail = [])
    (hshort : ∀ l ∈ rawLines text, l.length < MaxScanTokenSize) :
    kubeGetNamespaceParse text = .ok [] := by
  rw [kubeGetNamespaceParse_eq_rows text hshort, hrows]
  rfl

/-- C3 at the specification's example, with and without the final newline. -/
theorem kubeGetNamespaceParse_header_only_demo :
    kubeGetNamespaceParse (lit "NAME STATUS AGE\n") = .ok [] ∧
      kubeGetNamespaceParse (lit "NAME STATUS AGE") = .ok [] :=
  ⟨kubeGetNamespaceParse_header_only (lit "NAME STATUS AGE\n") (by decide) (by decide),
    kubeGetNamespaceParse_header_only (lit "NAME STATUS AGE") (by decide) (by decide)⟩

/-- C10: for a captured text whose lines are all shorter than the scanner's
limit of 65536 bytes, the parse ends with the index panic exactly when some
line after the first is empty or holds only white space (whether the line is
read without or with the carriage return before its newline), and otherwise
returns a list; the first line has no part in the result (two such texts with the same
lines after the first parse the same, whatever the first line is); and a text
without a final newline parses as the same text with the newline appended. -/
theorem kubeGetNamespaceParse_panics_iff_blank_row (text : GoString)
    (hshort : ∀ l ∈ rawLines text, l.length < MaxScanTokenSize) :
    (kubeGetNamespaceParse text = .indexOutOfRange ↔
        ∃ l ∈ (textLines text).tail, isBlank l = true) ∧
      (kubeGetNamespaceParse text = .indexOutOfRange ↔
        ∃ l ∈ (rawLines text).tail, isBlank l = true) ∧
      (kubeGetNamespaceParse text = .indexOutOfRange ∨
        ∃ namespaces, kubeGetNamespaceParse text = .ok namespaces) ∧
      (∀ other : GoString, (∀ l ∈ rawLines other, l.length < MaxScanTokenSize) →
        (rawLines other).tail = (rawLines text).tail →
        kubeGetNamespaceParse other = kubeGetNamespaceParse text) ∧
      (text.getLast? ≠ some 0x0A →
        kubeGetNamespaceParse (text ++ [0x0A]) = kubeGetNamespaceParse text) := by
  refine ⟨?_, ?_, ?_, ?_, ?_⟩
  · rw [kubeGetNamespaceParse_eq_rows text hshort,
      walkLines_rows_panic_iff _ _ (short_tail text hshort), textLines_tail]
    constructor
    · rintro ⟨l, hl, hb⟩
      exact ⟨dropCR l, List.mem_map_of_mem _ hl, hb⟩
    · rintro ⟨x, hx, hb⟩
      obtain ⟨l, hl, rfl⟩ := List.mem_map.mp hx
      exact ⟨l, hl, hb⟩
  · rw [kubeGetNamespaceParse_eq_rows text hshort,
      walkLines_rows_panic_iff _ _ (short_tail text hshort)]
    simp only [isBlank_dropCR]
  · rw [kubeGetNamespaceParse_eq_rows text hshort]
    exact walkLines_rows_cases _ _ (short_tail text hshort)
  · intro other hother htail
    rw [kubeGetNamespaceParse_eq_rows text hshort, kubeGetNamespaceParse_eq_rows other hother,
      htail]
  · intro hlast
    by_cases hne : text = []
    · subst hne
      decide
    · rw [kubeGetNamespaceParse_eq_walkLines, kubeGetNamespaceParse_eq_walkLines,
        rawLines_append_final_newline text hne hlast]

/-- C10 at concrete texts: a whitespace-only second line panics, a
whitespace-only first line does not, and the missing final newline changes
nothing. -/
theorem kubeGetNamespaceParse_panics_iff_blank_row_demo :
    kubeGetNamespaceParse (lit "NAME\n \t\nkube-system Active\n") = .indexOutOfRange ∧
      kubeGetNamespaceParse (lit " \t\nkube-system Active") ≠ .indexOutOfRange ∧
      kubeGetNamespaceParse (lit " \t\nkube-system Active" ++ [0x0A]) =
        kubeGetNamespaceParse (lit " \t\nkube-system Active") :=
  ⟨(kubeGetNamespaceParse_panics_iff_blank_row (lit "NAME\n \t\nkube-system Active\n")
      (by decide)).1.mpr (by decide),
    fun h => absurd ((kubeGetNamespaceParse_panics_iff_blank_row
      (lit " \t\nkube-system Active") (by decide)).1.mp h) (by decide),
    (kubeGetNamespaceParse_panics_iff_blank_row (lit " \t\nkube-system Active")
      (by decide)).2.2.2.2 (by decide)⟩

/-! ## The flow of `main` -/

theorem extractContexts_foldl (cs : List ContextEntry) (acc : List GoString) :
    cs.foldl (fun contexts c => contexts ++ [c.Name]) acc = acc ++ cs.map (fun c => c.Name) := by
  induction cs generalizing acc with
  | nil => simp
  | cons c cs ih => simp [ih]

theorem extractContexts_eq_map (kubeConf : Config) :
    extractContexts kubeConf = kubeConf.Contexts.map (fun c => c.Name) := by
  simp [extractContexts, extractContexts_foldl]

theorem run_of_loads (W : World) (kubectlExecutable : GoString) (kubeConf : Config)
    (h : Loads W kubectlExecutable kubeConf) :
    run W = deferredClose (W.closeFails (configFilePath W))
      (mainFlow W kubectlExecutable kubeConf) := by
  obtain ⟨hi, ho, data, hr, hy⟩ := h
  simp [run, hi, main, ho, hr, hy]

theorem deferredClose_trace (b : Bool) (o : Outcome) : (deferredClose b o).trace = o.trace := by
  unfold deferredClose
  split <;> try rfl
  split <;> rfl

theorem deferredClose_exit_success (b : Bool) (o : Outcome)
    (h : (deferredClose b o).exit = .success) : o.exit = .success := by
  unfold deferredClose at h
  split at h <;> simp_all

theorem stepOk_prompt (W : World) (p : Select) :
    stepOk W (.prompt p) = (W.selectRun p).isSome := rfl

theorem stepOk_kubeSetContextCmd (W : World) (kubectlExecutable c : GoString) :
    stepOk W (.exec (kubeSetContextCmd kubectlExecutable c)) =
      (W.cmdRun (kubeSetContextCmd kubectlExecutable c)).1 := by
  simp [stepOk, kubeSetContextCmd]

theorem stepOk_kubeSetNamespaceCmd (W : World) (kubectlExecutable n : GoString) :
    stepOk W (.exec (kubeSetNamespaceCmd kubectlExecutable n)) =
      (W.cmdRun (kubeSetNamespaceCmd kubectlExecutable n)).1 := by
  simp [stepOk, kubeSetNamespaceCmd]

theorem kubeGetNamespace_event (W : World) (kubectlExecutable c : GoString) :
    (kubeGetNamespace W kubectlExecutable c).1 =
      .exec (kubeGetNamespaceCmd kubectlExecutable c) := rfl

theorem kubeGetNamespace_ok (W : World) (kubectlExecutable c : GoString)
    (namespaces : List GoString)
    (h : (kubeGetNamespace W kubectlExecutable c).2 = .ok namespaces) :
    stepOk W (.exec (kubeGetNamespaceCmd kubectlExecutable c)) = true ∧
      kubeGetNamespaceParse (W.cmdRun (kubeGetNamespaceCmd kubectlExecutable c)).2 =
        .ok namespaces := by
  simp only [kubeGetNamespace] at h
  split at h
  · rename_i hr
    split at h
    · rename_i ns hp
      simp only [Except.ok.injEq] at h
      subst h
      simp [stepOk, hr, hp]
    all_goals exact absurd h (by simp)
  · exact absurd h (by simp)

theorem kubeGetNamespaceCmd_stdout (kubectlExecutable c : GoString) :
    (kubeGetNamespaceCmd kubectlExecutable c).Stdout = .buffer := rfl

theorem kubeGetNamespace_error (W : World) (kubectlExecutable c : GoString) (e : Exit)
    (h : (kubeGetNamespace W kubectlExecutable c).2 = .error e) :
    stepOk W (.exec (kubeGetNamespaceCmd kubectlExecutable c)) = false ∧ e ≠ .success := by
  simp only [kubeGetNamespace] at h
  split at h
  · rename_i hr
    split at h
    · exact absurd h (by simp)
    all_goals
      rename_i hp
      simp only [Except.error.injEq] at h
      subst h
      simp [stepOk, hr, hp, kubeGetNamespaceCmd_stdout]
  · rename_i hr
    simp only [Except.error.injEq] at h
    subst h
    simp [stepOk, hr]

theorem mutating_prompt (p : Select) : mutating (.prompt p) = false := rfl

theorem mutating_kubeSetContextCmd (kubectlExecutable c : GoString) :
    mutating (.exec (kubeSetContextCmd kubectlExecutable c)) = true := by
  simp [mutating, kubeSetContextCmd]

theorem mutating_kubeSetNamespaceCmd (kubectlExecutable n : GoString) :
    mutating (.exec (kubeSetNamespaceCmd kubectlExecutable n)) = true := by
  simp [mutating, kubeSetNamespaceCmd]

theorem mutating_kubeGetNamespaceCmd (kubectlExecutable c : GoString) :
    mutating (.exec (kubeGetNamespaceCmd kubectlExecutable c)) = false := by
  have : ¬ lit "get" = lit "config" := by decide
  simp [mutating, kubeGetNamespaceCmd, this]

theorem mainFlow_failFast (W : World) (kubectlExecutable : GoString) (kubeConf : Config) :
    FailFast W kubectlExecutable (extractContexts kubeConf)
      (mainFlow W kubectlExecutable kubeConf) := by
  unfold mainFlow
  simp only [kubeSetContext, kubeSetNamespace, kubeGetNamespace_event]
  split
  · refine ⟨[], [], [], ?_, ?_, ?_, ?_, ?_⟩
    · simp [successSequence]
    · simp
    · simp
    · simp
    · simp
  · rename_i c h1
    split
    · rename_i h2
      refine ⟨c, [], [], ?_, ?_, ?_, ?_, ?_⟩
      · simp [successSequence]
      · simp [stepOk_prompt, h1]
      · simp
      · simp
      · simp
    · rename_i h2
      have h2t : (W.cmdRun (kubeSetContextCmd kubectlExecutable c)).1 = true := by simpa using h2
      split
      · refine ⟨c, [], [], ?_, ?_, ?_, ?_, ?_⟩
        · simp [successSequence, setNamespacePrompt]
        · simp [stepOk_prompt, stepOk_kubeSetContextCmd, h1, h2t]
        · simp
        · simp
        · simp
      · rename_i a h3
        split
        · split
          · rename_i e hg
            obtain ⟨hgf, hge⟩ := kubeGetNamespace_error W kubectlExecutable c e hg
            refine ⟨c, [], [], ?_, ?_, ?_, ?_, ?_⟩
            · simp [successSequence, setNamespacePrompt]
            · simp [stepOk_prompt, stepOk_kubeSetContextCmd, h1, h2t, h3]
            · intro he
              exact absurd he hge
            · intro _
              simp [appliedChanges, List.filter, mutating_prompt, mutating_kubeSetContextCmd,
                mutating_kubeGetNamespaceCmd, stepOk_kubeSetContextCmd, h2t]
            · intro _
              simp [List.filter, mutating_prompt, mutating_kubeSetContextCmd,
                mutating_kubeGetNamespaceCmd]
          · rename_i namespaces hg
            obtain ⟨hgt, hgp⟩ := kubeGetNamespace_ok W kubectlExecutable c namespaces hg
            split
            · refine ⟨c, namespaces, [], ?_, ?_, ?_, ?_, ?_⟩
              · simp [successSequence, setNamespacePrompt, namespacePrompt]
              · simp [stepOk_prompt, stepOk_kubeSetContextCmd, h1, h2t, h3, hgt]
              · simp
              · intro _
                simp [appliedChanges, List.filter, mutating_prompt,
                  mutating_kubeSetContextCmd, mutating_kubeGetNamespaceCmd,
                  stepOk_kubeSetContextCmd, h2t]
              · intro _
                simp [List.filter, mutating_prompt, mutating_kubeSetContextCmd,
                  mutating_kubeGetNamespaceCmd]
            · rename_i n h5
              split
              · rename_i h6
                have h6f : (W.cmdRun (kubeSetNamespaceCmd kubectlExecutable n)).1 = false := by
                  simpa using h6
                refine ⟨c, namespaces, n, ?_, ?_, ?_, ?_, ?_⟩
                · simp [successSequence, setNamespacePrompt, namespacePrompt]
                · simp [stepOk_prompt, stepOk_kubeSetContextCmd, h1, h2t, h3, hgt, h5]
                · simp
                · intro _
                  simp [appliedChanges, List.filter, mutating_prompt,
                    mutating_kubeSetContextCmd, mutating_kubeGetNamespaceCmd,
                    mutating_kubeSetNamespaceCmd, stepOk_kubeSetContextCmd, h2t,
                    stepOk_kubeSetNamespaceCmd, h6f]
                · simp [stepOk_prompt, hgt, h5]
              · rename_i h6
                have h6t : (W.cmdRun (kubeSetNamespaceCmd kubectlExecutable n)).1 = true := by
                  simpa using h6
                refine ⟨c, namespaces, n, ?_, ?_, ?_, ?_, ?_⟩
                · simp [successSequence, setNamespacePrompt, namespacePrompt]
                · simp [stepOk_prompt, stepOk_kubeSetContextCmd, h1, h2t, h3, hgt, h5]
                · simp [stepOk_prompt, stepOk_kubeSetContextCmd, h1, h2t, h3, hgt, h5,
                    stepOk_kubeSetNamespaceCmd, h6t]
                · simp [stepOk_prompt, hgt, h5, stepOk_kubeSetNamespaceCmd, h6t]
                · simp [stepOk_prompt, hgt, h5, stepOk_kubeSetNamespaceCmd, h6t]
        · refine ⟨c, [], [], ?_, ?_, ?_, ?_, ?_⟩
          · simp [successSequence, setNamespacePrompt]
          · simp [stepOk_prompt, stepOk_kubeSetContextCmd, h1, h2t]
          · simp [stepOk_prompt, stepOk_kubeSetContextCmd, h1, h2t, h3]
          · simp
          · simp

theorem failFast_nil (W : World) (kubectlExecutable : GoString) (contexts : List GoString)
    (e : Exit) : FailFast W kubectlExecutable contexts ⟨[], e⟩ :=
  ⟨[], [], [], by simp, by simp, by simp, by simp, by simp⟩

theorem failFast_deferredClose (W : World) (kubectlExecutable : GoString)
    (contexts : List GoString) (b : Bool) (o : Outcome)
    (h : FailFast W kubectlExecutable contexts o) :
    FailFast W kubectlExecutable contexts (deferredClose b o) := by
  obtain ⟨c, namespaces, n, h1, h2, h3, h4, h5⟩ := h
  refine ⟨c, namespaces, n, ?_, ?_, ?_, ?_, ?_⟩
  · rw [deferredClose_trace]; exact h1
  · rw [deferredClose_trace]; exact h2
  · rw [deferredClose_trace]
    exact fun hs => h3 (deferredClose_exit_success b o hs)
  · rw [deferredClose_trace]; exact h4
  · rw [deferredClose_trace]; exact h5

theorem failFast_run (W : World) :
    ∃ kubectlExecutable contexts, FailFast W kubectlExecutable contexts (run W) := by
  unfold run
  split
  · exact ⟨[], [], failFast_nil W _ _ _⟩
  · rename_i kubectlExecutable _
    unfold main
    split
    · exact ⟨kubectlExecutable, [], failFast_nil W _ _ _⟩
    · split
      · exact ⟨kubectlExecutable, [], failFast_deferredClose _ _ _ _ _ (failFast_nil W _ _ _)⟩
      · split
        · exact ⟨kubectlExecutable, [],
            failFast_deferredClose _ _ _ _ _ (failFast_nil W _ _ _)⟩
        · exact ⟨kubectlExecutable, _,
            failFast_deferredClose _ _ _ _ _ (mainFlow_failFast W _ _)⟩

theorem mainFlow_ne_outOfFuel (W : World) (kubectlExecutable : GoString) (kubeConf : Config) :
    (mainFlow W kubectlExecutable kubeConf).exit ≠ .outOfFuel := by
  unfold mainFlow
  simp only [kubeSetContext, kubeSetNamespace, kubeGetNamespace]
  have ht := kubeGetNamespaceParse_terminates
  split
  · simp
  · split
    · simp
    · split
      · simp
      · split
        · split
          · rename_i e hg
            split at hg
            · split at hg
              · simp at hg
              · simp only [Except.error.injEq] at hg
                subst hg
                simp
              · simp only [Except.error.injEq] at hg
                subst hg
                simp
              · rename_i hp
                exact absurd hp (ht _)
            · simp only [Except.error.injEq] at hg
              subst hg
              simp
          · split
            · simp
            · split <;> simp
        · simp

/-- The iteration bounds of the embedding are never exhausted in a run. -/
theorem run_terminates (W : World) : (run W).exit ≠ .outOfFuel := by
  have hd : ∀ (b : Bool) (o : Outcome), o.exit ≠ .outOfFuel →
      (deferredClose b o).exit ≠ .outOfFuel := by
    intro b o ho
    unfold deferredClose
    split
    · split
      · simp
      · exact ho
    · exact ho
    · exact ho
    · exact ho
  unfold run
  split
  · simp
  · unfold main
    split
    · simp
    · apply hd
      split
      · simp
      · split
        · simp
        · exact mainFlow_ne_outOfFuel W _ _

theorem mainFlow_cancelled (W : World) (kubectlExecutable : GoString) (kubeConf : Config)
    (hcancel : W.selectRun (contextPrompt kubeConf) = none) :
    mainFlow W kubectlExecutable kubeConf = ⟨[.prompt (contextPrompt kubeConf)], .panic⟩ := by
  unfold contextPrompt at hcancel
  simp [mainFlow, hcancel, contextPrompt]

theorem mainFlow_declined (W : World) (kubectlExecutable : GoString) (kubeConf : Config)
    (c a : GoString)
    (hc : W.selectRun (contextPrompt kubeConf) = some c)
    (hset : (W.cmdRun (kubeSetContextCmd kubectlExecutable c)).1 = true)
    (ha : W.selectRun setNamespacePrompt = some a) (hne : a ≠ lit "yes") :
    mainFlow W kubectlExecutable kubeConf =
      ⟨[.prompt (contextPrompt kubeConf), .exec (kubeSetContextCmd kubectlExecutable c),
        .prompt setNamespacePrompt], .success⟩ := by
  unfold contextPrompt at hc
  unfold setNamespacePrompt at ha
  simp [mainFlow, hc, kubeSetContext, hset, ha, hne, contextPrompt, setNamespacePrompt]

theorem mainFlow_accepted (W : World) (kubectlExecutable : GoString) (kubeConf : Config)
    (c out : GoString) (namespaces : List GoString)
    (hc : W.selectRun (contextPrompt kubeConf) = some c)
    (hset : (W.cmdRun (kubeSetContextCmd kubectlExecutable c)).1 = true)
    (hyes : W.selectRun setNamespacePrompt = some (lit "yes"))
    (hget : W.cmdRun (kubeGetNamespaceCmd kubectlExecutable c) = (true, out))
    (hparse : kubeGetNamespaceParse out = .ok namespaces) :
    mainFlow W kubectlExecutable kubeConf =
      match W.selectRun (namespacePrompt namespaces) with
      | none =>
        ⟨[.prompt (contextPrompt kubeConf), .exec (kubeSetContextCmd kubectlExecutable c),
          .prompt setNamespacePrompt, .exec (kubeGetNamespaceCmd kubectlExecutable c),
          .prompt (namespacePrompt namespaces)], .panic⟩
      | some n =>
        ⟨[.prompt (contextPrompt kubeConf), .exec (kubeSetContextCmd kubectlExecutable c),
          .prompt setNamespacePrompt, .exec (kubeGetNamespaceCmd kubectlExecutable c),
          .prompt (namespacePrompt namespaces),
          .exec (kubeSetNamespaceCmd kubectlExecutable n)],
          if (W.cmdRun (kubeSetNamespaceCmd kubectlExecutable n)).1 then .success else .panic⟩ := by
  unfold contextPrompt at hc
  unfold setNamespacePrompt at hyes
  have hg : (kubeGetNamespace W kubectlExecutable c).2 = .ok namespaces := by
    simp [kubeGetNamespace, hget, hparse]
  unfold mainFlow
  simp only [hc, kubeSetContext, hset, hyes, kubeGetNamespace_event, hg, kubeSetNamespace]
  unfold namespacePrompt
  cases W.selectRun (selectPrompt (lit "Select namespace") namespaces 10 false) with
  | none => simp [contextPrompt, setNamespacePrompt]
  | some n =>
    by_cases h6 : (W.cmdRun (kubeSetNamespaceCmd kubectlExecutable n)).1 = true <;>
      simp [contextPrompt, setNamespacePrompt, h6]

/-! ## Claims about the flow of `main` -/

/-- C4: the first step of `main` after the configuration is parsed is the
context prompt, and the names it offers are the `Name`s of the context
entries: as many as there are entries, the i-th name that of the i-th entry. -/
theorem main_offers_context_names (W : World) (kubectlExecutable : GoString)
    (kubeConf : Config) :
    ∃ p, (mainFlow W kubectlExecutable kubeConf).trace.head? = some (.prompt p) ∧
      p.Label = lit "Select context" ∧
      p.Items = extractContexts kubeConf ∧
      p.Items.length = kubeConf.Contexts.length ∧
      ∀ i : Nat, p.Items[i]? = (kubeConf.Contexts[i]?).map (fun c : ContextEntry => c.Name) := by
  refine ⟨contextPrompt kubeConf, ?_, rfl, rfl, ?_, ?_⟩
  · unfold mainFlow
    simp only [kubeSetContext, kubeSetNamespace, kubeGetNamespace_event]
    split
    · rfl
    · split
      · rfl
      · split
        · rfl
        · split
          · split
            · rfl
            · split
              · rfl
              · split <;> rfl
          · rfl
  · simp [contextPrompt, selectPrompt, extractContexts_eq_map]
  · intro i
    simp [contextPrompt, selectPrompt, extractContexts_eq_map]

/-- C5: when the program got to the first prompt, the user chooses the
context `c`, `config use-context c` succeeds and the user answers `no`, the
whole run invokes exactly one external command, with the arguments
`config use-context c` after the executable path, and shows no further
prompt. -/
theorem main_no_flow (W : World) (kubectlExecutable : GoString) (kubeConf : Config)
    (c : GoString) (hload : Loads W kubectlExecutable kubeConf)
    (hc : W.selectRun (contextPrompt kubeConf) = some c)
    (hset : (W.cmdRun (kubeSetContextCmd kubectlExecutable c)).1 = true)
    (hno : W.selectRun setNamespacePrompt = some (lit "no")) :
    (invocations (run W).trace).map (fun x => x.Args) =
        [[kubectlExecutable, lit "config", lit "use-context", c]] ∧
      prompts (run W).trace = [contextPrompt kubeConf, setNamespacePrompt] := by
  rw [run_of_loads W _ _ hload, deferredClose_trace,
    mainFlow_declined W _ _ c _ hc hset hno (by decide)]
  simp [invocations, prompts, kubeSetContextCmd]

/-- C5 at the specification's scenario: contexts `dev` and `prod`, the user
selects `prod`, then `no`; the single invocation is `config use-context prod`. -/
theorem main_no_flow_demo :
    (invocations (run (demoWorld answersNo)).trace).map (fun x => x.Args) =
      [[lit "/usr/bin/kubectl", lit "config", lit "use-context", lit "prod"]] :=
  (main_no_flow (demoWorld answersNo) (lit "/usr/bin/kubectl") demoConfig (lit "prod")
    ⟨rfl, rfl, _, rfl, rfl⟩ (by decide) (by decide) (by decide)).1

/-- C6, as stated, fails: in the scenario where the user selects `prod`, `yes`
and `kube-system` and every step succeeds, the run invokes three external
commands, not two; between the two `config` commands it runs
`get namespace --context prod`. -/
theorem run_yes_three_invocations :
    (run (demoWorld answersYes)).exit = .success ∧
      (invocations (run (demoWorld answersYes)).trace).map (fun x => x.Args.tail) =
        [[lit "config", lit "use-context", lit "prod"],
         [lit "get", lit "namespace", lit "--context", lit "prod"],
         [lit "config", lit "set-context", lit "--current", lit "--namespace=kube-system"]] ∧
      (invocations (run (demoWorld answersYes)).trace).map (fun x => x.Args.tail) ≠
        [[lit "config", lit "use-context", lit "prod"],
         [lit "config", lit "set-context", lit "--current", lit "--namespace=kube-system"]] := by
  decide

/-- C6 (amended): when the user chooses the context `c`, answers `yes` and
chooses the namespace `n`, and every step succeeds, the whole run invokes
exactly three external commands, in this order: `config use-context c`,
`get namespace --context c`, `config set-context --current --namespace=n`; the
two that change the configuration are the first and the last. -/
theorem main_yes_flow (W : World) (kubectlExecutable : GoString) (kubeConf : Config)
    (c out : GoString) (namespaces : List GoString) (n : GoString)
    (hload : Loads W kubectlExecutable kubeConf)
    (hc : W.selectRun (contextPrompt kubeConf) = some c)
    (hset : (W.cmdRun (kubeSetContextCmd kubectlExecutable c)).1 = true)
    (hyes : W.selectRun setNamespacePrompt = some (lit "yes"))
    (hget : W.cmdRun (kubeGetNamespaceCmd kubectlExecutable c) = (true, out))
    (hparse : kubeGetNamespaceParse out = .ok namespaces)
    (hn : W.selectRun (namespacePrompt namespaces) = some n)
    (hns : (W.cmdRun (kubeSetNamespaceCmd kubectlExecutable n)).1 = true) :
    (invocations (run W).trace).map (fun x => x.Args) =
        [[kubectlExecutable, lit "config", lit "use-context", c],
         [kubectlExecutable, lit "get", lit "namespace", lit "--context", c],
         [kubectlExecutable, lit "config", lit "set-context", lit "--current",
           lit "--namespace=" ++ n]] ∧
      ((run W).trace.filter mutating).map (fun e => match e with
          | .exec x => x.Args
          | .prompt _ => []) =
        [[kubectlExecutable, lit "config", lit "use-context", c],
         [kubectlExecutable, lit "config", lit "set-context", lit "--current",
           lit "--namespace=" ++ n]] := by
  rw [run_of_loads W _ _ hload, deferredClose_trace,
    mainFlow_accepted W _ _ c out namespaces hc hset hyes hget hparse]
  simp only [hn, hns]
  constructor
  · simp [invocations, kubeSetContextCmd, kubeGetNamespaceCmd, kubeSetNamespaceCmd]
  · simp [List.filter, mutating_prompt, mutating_kubeSetContextCmd,
      mutating_kubeGetNamespaceCmd, mutating_kubeSetNamespaceCmd]
    simp [kubeSetContextCmd, kubeSetNamespaceCmd]

/-- C6 (amended) at the specification's scenario: the user selects `prod`,
`yes`, `kube-system`. -/
theorem main_yes_flow_demo :
    (invocations (run (demoWorld answersYes)).trace).map (fun x => x.Args) =
      [[lit "/usr/bin/kubectl", lit "config", lit "use-context", lit "prod"],
       [lit "/usr/bin/kubectl", lit "get", lit "namespace", lit "--context", lit "prod"],
       [lit "/usr/bin/kubectl", lit "config", lit "set-context", lit "--current",
         lit "--namespace=" ++ lit "kube-system"]] :=
  (main_yes_flow (demoWorld answersYes) (lit "/usr/bin/kubectl") demoConfig (lit "prod")
    demoOutput [lit "default", lit "kube-system"] (lit "kube-system")
    ⟨rfl, rfl, _, rfl, rfl⟩ (by decide) (by decide) (by decide) (by decide) (by decide)
    (by decide) (by decide)).1

/-- C7: when the program got to the first prompt and the context prompt
returns an error, the run ends with a panic, no external command is invoked
and no other prompt is shown. -/
theorem main_cancel_first_prompt (W : World) (kubectlExecutable : GoString)
    (kubeConf : Config) (hload : Loads W kubectlExecutable kubeConf)
    (hcancel : W.selectRun (contextPrompt kubeConf) = none) :
    (run W).exit = .panic ∧ invocations (run W).trace = [] ∧
      prompts (run W).trace = [contextPrompt kubeConf] := by
  rw [run_of_loads W _ _ hload, mainFlow_cancelled W _ _ hcancel]
  simp [deferredClose, invocations, prompts]

/-- C7 at a concrete run: the user cancels the prompt over `dev` and `prod`. -/
theorem main_cancel_first_prompt_demo :
    (run (demoWorld answersCancel)).exit = .panic ∧
      invocations (run (demoWorld answersCancel)).trace = [] :=
  have h := main_cancel_first_prompt (demoWorld answersCancel) (lit "/usr/bin/kubectl")
    demoConfig ⟨rfl, rfl, _, rfl, rfl⟩ rfl
  ⟨h.1, h.2.1⟩

/-- C8, as stated, fails: when every step succeeds but the final
`config set-context`, the namespace step has failed and the run holds two
mutating invocations, the `use-context` and the `set-context` that failed, so
the `use-context` is not the only one. -/
theorem run_failed_set_context_two_mutating :
    (run setContextFailsWorld).exit = .panic ∧
      Event.exec (kubeSetNamespaceCmd (lit "/usr/bin/kubectl") (lit "kube-system")) ∈
        (run setContextFailsWorld).trace.drop 3 ∧
      stepOk setContextFailsWorld
        (.exec (kubeSetNamespaceCmd (lit "/usr/bin/kubectl") (lit "kube-system"))) = false ∧
      (run setContextFailsWorld).trace.filter mutating =
        [.exec (kubeSetContextCmd (lit "/usr/bin/kubectl") (lit "prod")),
         .exec (kubeSetNamespaceCmd (lit "/usr/bin/kubectl") (lit "kube-system"))] ∧
      (run setContextFailsWorld).trace.filter mutating ≠
        [.exec (kubeSetContextCmd (lit "/usr/bin/kubectl") (lit "prod"))] := by
  decide

/-- C8 (amended): in every run the prompts and commands performed are an
initial part of a success sequence (so no other command, in particular no
compensating one, is issued); every step but the last succeeded, so nothing
follows the first failed step; a run that exits with success has no failed
step; and when a step after the yes/no prompt failed (namespace listing,
namespace prompt or `set-context`), the only change applied is the
`config use-context c` of the chosen context.  It is the only mutating
invocation of the run when the failed step is the listing or the namespace
prompt; when the `set-context` itself failed, that failed invocation is the
only other mutating one. -/
theorem run_fail_fast (W : World) :
    ∃ kubectlExecutable contexts c namespaces n,
      (run W).trace <+: successSequence kubectlExecutable contexts c namespaces n ∧
      (∀ e ∈ (run W).trace.dropLast, stepOk W e = true) ∧
      ((run W).exit = .success → ∀ e ∈ (run W).trace, stepOk W e = true) ∧
      ((∃ e ∈ (run W).trace.drop 3, stepOk W e = false) →
        appliedChanges W (run W).trace = [.exec (kubeSetContextCmd kubectlExecutable c)] ∧
        ((run W).trace.filter mutating = [.exec (kubeSetContextCmd kubectlExecutable c)] ∨
          ((run W).trace.filter mutating =
              [.exec (kubeSetContextCmd kubectlExecutable c),
               .exec (kubeSetNamespaceCmd kubectlExecutable n)] ∧
            stepOk W (.exec (kubeSetNamespaceCmd kubectlExecutable n)) = false))) ∧
      ((∃ e ∈ (run W).trace.drop 3,
          stepOk W e = false ∧ e ≠ .exec (kubeSetNamespaceCmd kubectlExecutable n)) →
        (run W).trace.filter mutating =
          [.exec (kubeSetContextCmd kubectlExecutable c)]) := by
  obtain ⟨kubectlExecutable, contexts, c, namespaces, n, h⟩ := failFast_run W
  exact ⟨kubectlExecutable, contexts, c, namespaces, n, h⟩

/-- C9: when the user chooses the context `c` and answers `yes`, the command
run for the listing is the executable path followed by
`get namespace --context c`, with its output captured; the namespace prompt,
the fifth step of the run, has as its items exactly the names parsed from that
output (the three prompts of the run offer the context names, `no` and `yes`,
and the parsed names); and the chosen namespace `n`
is applied by the executable path followed by
`config set-context --current --namespace=n`. -/
theorem main_namespace_step (W : World) (kubectlExecutable : GoString) (kubeConf : Config)
    (c out : GoString) (namespaces : List GoString)
    (hload : Loads W kubectlExecutable kubeConf)
    (hc : W.selectRun (contextPrompt kubeConf) = some c)
    (hset : (W.cmdRun (kubeSetContextCmd kubectlExecutable c)).1 = true)
    (hyes : W.selectRun setNamespacePrompt = some (lit "yes"))
    (hget : W.cmdRun ⟨kubectlExecutable,
      [kubectlExecutable, lit "get", lit "namespace", lit "--context", c],
      .buffer, .osStderr⟩ = (true, out))
    (hparse : kubeGetNamespaceParse out = .ok namespaces) :
    (run W).trace.take 5 =
        [.prompt (contextPrompt kubeConf),
         .exec ⟨kubectlExecutable, [kubectlExecutable, lit "config", lit "use-context", c],
           .osStdout, .osStderr⟩,
         .prompt setNamespacePrompt,
         .exec ⟨kubectlExecutable,
           [kubectlExecutable, lit "get", lit "namespace", lit "--context", c],
           .buffer, .osStderr⟩,
         .prompt (selectPrompt (lit "Select namespace") namespaces 10 false)] ∧
      (prompts (run W).trace).map (fun p => (p.Label, p.Items)) =
        [(lit "Select context", kubeConf.Contexts.map (fun x => x.Name)),
         (lit "Set Namespace for current context?", [lit "no", lit "yes"]),
         (lit "Select namespace", namespaces)] ∧
      (∃ p, (run W).trace[4]? = some (.prompt p) ∧ p.Items = namespaces ∧
        p.Label = lit "Select namespace" ∧ p.Size = 10 ∧ p.Searcher = false) ∧
      ∀ n, W.selectRun (selectPrompt (lit "Select namespace") namespaces 10 false) = some n →
        (run W).trace.drop 5 =
          [.exec ⟨kubectlExecutable,
            [kubectlExecutable, lit "config", lit "set-context", lit "--current",
              lit "--namespace=" ++ n], .osStdout, .osStderr⟩] := by
  rw [run_of_loads W _ _ hload, deferredClose_trace,
    mainFlow_accepted W _ _ c out namespaces hc hset hyes hget hparse]
  refine ⟨?_, ?_, ?_, ?_⟩
  · cases W.selectRun (namespacePrompt namespaces) <;>
      simp [kubeSetContextCmd, kubeGetNamespaceCmd, namespacePrompt]
  · cases W.selectRun (namespacePrompt namespaces) <;>
      simp [prompts, contextPrompt, setNamespacePrompt, namespacePrompt, selectPrompt,
        extractContexts_eq_map]
  · cases W.selectRun (namespacePrompt namespaces) <;>
      simp [namespacePrompt, selectPrompt]
  · intro n hn
    have hn2 : W.selectRun (namespacePrompt namespaces) = some n := hn
    simp [hn2, kubeSetNamespaceCmd]

/-- C9 at the specification's scenario: the current context is `dev`, the
user selects `prod`, `yes`, `kube-system`; the listing is for `prod`, the
prompt offers `default` and `kube-system`. -/
theorem main_namespace_step_demo :
    (run (demoWorld answersYes)).trace.drop 3 =
        [.exec ⟨lit "/usr/bin/kubectl",
           [lit "/usr/bin/kubectl", lit "get", lit "namespace", lit "--context", lit "prod"],
           .buffer, .osStderr⟩,
         .prompt (selectPrompt (lit "Select namespace") [lit "default", lit "kube-system"]
           10 false),
         .exec ⟨lit "/usr/bin/kubectl",
           [lit "/usr/bin/kubectl", lit "config", lit "set-context", lit "--current",
             lit "--namespace=" ++ lit "kube-system"], .osStdout, .osStderr⟩] ∧
      (prompts (run (demoWorld answersYes)).trace).map (fun p => (p.Label, p.Items)) =
        [(lit "Select context", [lit "dev", lit "prod"]),
         (lit "Set Namespace for current context?", [lit "no", lit "yes"]),
         (lit "Select namespace", [lit "default", lit "kube-system"])] := by
  have h := main_namespace_step (demoWorld answersYes) (lit "/usr/bin/kubectl") demoConfig
    (lit "prod") demoOutput [lit "default", lit "kube-system"]
    ⟨rfl, rfl, _, rfl, rfl⟩ (by decide) (by decide) (by decide) (by decide) (by decide)
  have h5 := h.2.2.2 (lit "kube-system") (by decide)
  have ht := List.take_append_drop 5 (run (demoWorld answersYes)).trace
  rw [h.1, h5] at ht
  refine ⟨?_, h.2.1⟩
  rw [← ht]
  rfl

end K
